import Mathlib

/-!
Verification of `find_asserts.py` (assert_gatherer): a shallow embedding of the
metadata resolver (`get_github_url`), the sdist acquisition
(`download_and_extract_sdist`), the checkout path computation (`clone_repo`),
the assertion scanner (`count_py_files` / `find_asserts` / `AssertFinder`) and
the per-package pipeline (`process_package`), together with theorems settling
the specification's claims about them.

External effects (HTTP, subprocesses, the filesystem, the output sink) are
modelled by explicit outcome parameters; all pure computation (string and path
manipulation, URL pattern matching, branch structure) is translated directly
from the Python source.
-/

set_option autoImplicit false

namespace AssertGatherer

/-! ### Generic list/string helpers -/

/-! ### The resolver: `get_github_url` (find_asserts.py lines 22-45)

Strings are handled at the `List Char` level; `project_urls` (a Python dict,
iterated in insertion order) is an association list of key/value pairs. -/

/-- Strips `p` from the front of `s`: `some` of the remainder when `p` starts
`s`, else `none`. Mirrors how `re.match` consumes a literal part of the
pattern at the start of the subject string. -/
def stripPre : List Char → List Char → Option (List Char)
  | [], s => some s
  | _ :: _, [] => none
  | a :: as, b :: bs => if a = b then stripPre as bs else none

/-- Second half of the URL regular expression `(https?://github\.com/[^/]+/[^/]+)`:
after the scheme/host prefix has been consumed, match a nonempty slash-free
owner segment, a slash, and a nonempty slash-free repo segment; return the
full matched text (`pre` is the already-consumed prefix). `[^/]+` is greedy,
so each segment is the maximal run of non-slash characters. When the
`dropWhile` remainder is nonempty its head is necessarily `'/'`, which is the
character the regex consumes between the two segments. -/
def matchTail (pre r : List Char) : Option (List Char) :=
  let ow := r.takeWhile (fun c => c ≠ '/')
  let dw := r.dropWhile (fun c => c ≠ '/')
  if ow = [] then none
  else if dw = [] then none
  else
    let rp := dw.tail.takeWhile (fun c => c ≠ '/')
    if rp = [] then none else some (pre ++ ow ++ '/' :: rp)

/-- The scheme-and-host prefix `http://github.com/` as a character list. -/
def httpHead : List Char :=
  ['h', 't', 't', 'p', ':', '/', '/', 'g', 'i', 't', 'h', 'u', 'b', '.', 'c', 'o', 'm', '/']

/-- The scheme-and-host prefix `https://github.com/` as a character list. -/
def httpsHead : List Char :=
  ['h', 't', 't', 'p', 's', ':', '/', '/', 'g', 'i', 't', 'h', 'u', 'b', '.', 'c', 'o', 'm', '/']

/-- The host part `://github.com/` following `http`/`https`. -/
def colonHost : List Char :=
  [':', '/', '/', 'g', 'i', 't', 'h', 'u', 'b', '.', 'c', 'o', 'm', '/']

/-- Anchored match of `(https?://github\.com/[^/]+/[^/]+)` against the start of
`s` (Python `regexp.match`), returning `match.group(1)` on success. The
optional `s` of the scheme is committed by looking at the character after
`http`, which is equivalent to the regex's backtracking behaviour: if that
character is `s` but `://github.com/` does not follow it, the regex's
alternative of an absent `s` also fails, since it would require `:` where `s`
stands. -/
def matchGithubCore (s : List Char) : Option (List Char) :=
  match stripPre ['h', 't', 't', 'p'] s with
  | none => none
  | some [] => none
  | some (c :: r1) =>
    if c = 's' then
      match stripPre colonHost r1 with
      | some r2 => matchTail httpsHead r2
      | none => none
    else
      match stripPre colonHost (c :: r1) with
      | some r2 => matchTail httpHead r2
      | none => none

/-- Spec-side reading of the pattern `https?://github.com/<owner>/<repo>`:
`s` starts with a scheme-and-host prefix followed by a nonempty slash-free
owner, a slash, a nonempty slash-free repo, and a remainder that is either
empty or a trailing path starting with `/`; `l` is that text truncated to
scheme, host, owner and repo. -/
def CoreGithubSpec (s l : List Char) : Prop :=
  ∃ head ow rp rest,
    (head = httpHead ∨ head = httpsHead) ∧
    ow ≠ [] ∧ (∀ c ∈ ow, c ≠ '/') ∧ rp ≠ [] ∧ (∀ c ∈ rp, c ≠ '/') ∧
    (rest = [] ∨ ∃ r2, rest = '/' :: r2) ∧
    s = head ++ ow ++ '/' :: (rp ++ rest) ∧ l = head ++ ow ++ '/' :: rp

/-- `regexp.match(value)` followed by `match.group(1)`, at `String` level. -/
def githubMatch (s : String) : Option String :=
  Option.map String.mk (matchGithubCore s.data)

/-- Spec-side statement that `v` matches `https?://github.com/<owner>/<repo>`
at its start and `m` is the match truncated to scheme, host, owner and repo. -/
def SpecGithubPattern (v m : String) : Prop := CoreGithubSpec v.data m.data

/-- Python `project_urls.get(key)`: the first binding of the key in insertion
order, or `None`. -/
def dictGet (d : List (String × String)) (k : String) : Option String :=
  Option.map Prod.snd (d.find? (fun kv => kv.1 == k))

/-- Python `a or b` for two optional strings: `a` unless it is `None` or the
empty string (falsy), in which case `b`. -/
def pyOrStr (a b : Option String) : Option String :=
  match a with
  | some s => if s = "" then b else some s
  | none => b

/-- Substring containment test, Python `needle in hay`. -/
def containsSub (needle : List Char) : List Char → Bool
  | [] => needle.isEmpty
  | b :: bs => (stripPre needle (b :: bs)).isSome || containsSub needle bs

/-- Python `'github.com' in url`. -/
def hasGithub (u : String) : Bool := containsSub "github.com".data u.data

/-- The well-known key names probed after the pattern scan
(find_asserts.py line 37), in the code's order. -/
def commonKeys : List String :=
  ["Source", "Code", "Repository", "GitHub: repo", "Source Code", "Homepage", "GitHub"]

/-- The issue-tracker key names (find_asserts.py line 41). -/
def issueKeys : List String := ["Issues", "Bug Tracker", "Bug Reports"]

/-- Python `key.lower()`, character by character. The keys it is applied to
(`commonKeys`, `issueKeys`) are ASCII, where `Char.toLower` agrees with
`str.lower`. -/
def lowerStr (s : String) : String := String.mk (s.data.map Char.toLower)

/-- One iteration of the key loops:
`url = project_urls.get(key) or project_urls.get(key.lower())` followed by the
guard `if url and 'github.com' in url`. -/
def keyProbe (d : List (String × String)) (k : String) : Option String :=
  match pyOrStr (dictGet d k) (dictGet d (lowerStr k)) with
  | some u => if u = "" then none else if hasGithub u then some u else none
  | none => none

/-- The key loop over a list of candidate keys: first probe that passes the
guard wins; a found-but-guard-failing value does not stop the loop. -/
def keyScan (d : List (String × String)) : List String → Option String
  | [] => none
  | k :: ks =>
    match keyProbe d k with
    | some u => some u
    | none => keyScan d ks

/-- The first loop of `get_github_url` (lines 31-34): iterate the dict's
values in order and return the first regex match. -/
def firstGithubValue : List String → Option String
  | [] => none
  | v :: vs =>
    match githubMatch v with
    | some m => some m
    | none => firstGithubValue vs

/-- Fuel-indexed deletion of every occurrence of `needle`, scanning left to
right, non-overlapping; structural in the fuel so that it reduces by
computation. With fuel at least the length of the scanned list the fuel never
runs out. -/
def removeAllFuel (needle : List Char) : Nat → List Char → List Char
  | 0, l => l
  | _ + 1, [] => []
  | fuel + 1, b :: bs =>
    if (stripPre needle (b :: bs)).isSome && !needle.isEmpty then
      removeAllFuel needle fuel (bs.drop (needle.length - 1))
    else
      b :: removeAllFuel needle fuel bs

/-- Python `str.replace(needle, '')` for a nonempty needle: delete every
occurrence, scanning left to right, non-overlapping. -/
def removeAll (needle hay : List Char) : List Char := removeAllFuel needle hay.length hay

/-- Python `issue_url.replace('/issues', '')` (find_asserts.py line 44). -/
def replaceIssues (u : String) : String := String.mk (removeAll "/issues".data u.data)

/-- `get_github_url` (find_asserts.py lines 22-45), given the decoded
`project_urls` mapping of a successful (HTTP 200) metadata response. -/
def get_github_url (project_urls : List (String × String)) : String :=
  match firstGithubValue (project_urls.map Prod.snd) with
  | some m => m
  | none =>
    match keyScan project_urls commonKeys with
    | some url => url
    | none =>
      match keyScan project_urls issueKeys with
      | some issue_url => replaceIssues issue_url
      | none => ""

/-- A hit of the key lookup as the code performs it: the value found under the
exactly-capitalized key wins; the all-lowercase key is consulted only when the
exact key is absent or bound to the empty string; the found value must be
nonempty and contain `github.com`. -/
def KeyHit (d : List (String × String)) (k u : String) : Prop :=
  (dictGet d k = some u ∨
    ((dictGet d k = none ∨ dictGet d k = some "") ∧ dictGet d (lowerStr k) = some u)) ∧
  u ≠ "" ∧ hasGithub u = true

/-- No value passes the lookup-and-guard for key `k`. -/
def KeyMiss (d : List (String × String)) (k : String) : Prop := ∀ u, ¬ KeyHit d k u

/-! ### Path computations, acquisition, and the per-package pipeline
(find_asserts.py lines 60-94 and 124-172)

External calls are modelled by outcome parameters collected in `PipelineEnv`:
each field records how one effectful call of `process_package` turns out
(`Outcome.exn` standing for a raised exception). Pure path and string
computations are translated from the source. -/

/-- Python `s.startswith(p)`. -/
def strStarts (s p : String) : Bool := (stripPre p.data s.data).isSome

/-- Python `s.endswith(p)`. -/
def strEnds (s p : String) : Bool := (stripPre p.data.reverse s.data.reverse).isSome

/-- Python `str.strip()`: the string without leading and trailing whitespace. -/
def strTrim (s : String) : String :=
  String.mk (((s.data.dropWhile Char.isWhitespace).reverse.dropWhile Char.isWhitespace).reverse)

/-- Python `u.split('/')[-1]`: the suffix after the final `'/'`, or the whole
string when it has no `'/'` (`''.split('/')` is `['']`, so the empty string
maps to itself). -/
def lastSegment (u : String) : String :=
  String.mk ((u.data.reverse.takeWhile (fun c => c ≠ '/')).reverse)

/-- POSIX `os.path.join(a, b)`: `b` when absolute; otherwise appended to `a`,
inserting `'/'` unless `a` is empty or already ends with one. In particular
`os.path.join(a, '')` appends a trailing slash to a nonempty `a`. -/
def ospath_join (a b : String) : String :=
  if strStarts b "/" then b
  else if a = "" then a ++ b
  else if strEnds a "/" then a ++ b
  else a ++ "/" ++ b

/-- POSIX `os.path.basename(u)`: the text after the final `'/'`. -/
def basename (u : String) : String := lastSegment u

/-- The directory `clone_repo` (lines 86-94) returns:
`os.path.join(temp_dir, github_url.split('/')[-1])`. The function never
inspects the subprocess's exit status, so this is its return value whenever
`create_subprocess_exec` itself does not raise. -/
def clone_repo (github_url temp_dir : String) : String :=
  ospath_join temp_dir (lastSegment github_url)

/-- The ways `download_and_extract_sdist` (lines 60-84) fails: the terminal
`raise ValueError` for a non-200 download, the `Unsupported file format`
`ValueError` for an unrecognized extension, and an exception raised by the
extraction itself. -/
inductive AcqError where
  | downloadFailed (url : String)
  | unsupportedFormat (fileName : String)
  | extractRaised
deriving DecidableEq

/-- `download_and_extract_sdist` (lines 60-84). `downloadOk` is whether the
HTTP response status is 200; `extractRaises` is whether the tar/zip
extraction raises. On success the function returns the `extracted`
subdirectory of the workspace. -/
def download_and_extract_sdist (downloadOk extractRaises : Bool)
    (sdist_url temp_dir : String) : Except AcqError String :=
  if downloadOk then
    let file_name := basename sdist_url
    if strEnds file_name ".tar.gz" || strEnds file_name ".tgz" then
      if extractRaises then Except.error AcqError.extractRaised
      else Except.ok (ospath_join temp_dir "extracted")
    else if strEnds file_name ".zip" then
      if extractRaises then Except.error AcqError.extractRaised
      else Except.ok (ospath_join temp_dir "extracted")
    else Except.error (AcqError.unsupportedFormat file_name)
  else Except.error (AcqError.downloadFailed sdist_url)

/-- Result of one effectful call: a value, or a raised exception. -/
inductive Outcome (α : Type) where
  | ok (val : α)
  | exn
deriving DecidableEq

/-- The outcomes of the external calls one `process_package` invocation
performs: resolution (`get_github_url`), sdist lookup (`get_sdist_url`), the
sdist download HTTP status and extraction, the two `clone_repo` subprocess
spawns (lines 148 and 156), the scan (`find_asserts`), and the record write
to the shared sink. -/
structure PipelineEnv where
  githubRes : Outcome String
  sdistRes : Outcome String
  downloadOk : Bool
  extractRaises : Bool
  cloneRaises : Bool
  recloneRaises : Bool
  scanRes : Outcome (List String)
  writeFails : Bool
deriving DecidableEq

/-- Observables of one `process_package` invocation: how often the overall
progress counter was advanced, the record written to the sink (at most one),
whether an exception escaped the call, and the directory the sizing pass and
the scan ran over (when the scanning stage was reached). -/
structure PipelineResult where
  advances : Nat
  record : Option (List String)
  raised : Bool
  scannedDir : Option String
deriving DecidableEq

/-- The scanning block of `process_package` (lines 154-172): the unconditional
re-clone, the file-count sizing pass, the scan, the overall-counter advance,
and the guarded record write. A failure of the write is caught by the
`except` on line 167, whose handler advances the overall counter a second
time. -/
def scanStage (github_url temp_dir : String) (env : PipelineEnv) : PipelineResult :=
  if env.recloneRaises then ⟨1, none, false, none⟩
  else
    let repo_dir := clone_repo github_url temp_dir
    match env.scanRes with
    | Outcome.exn => ⟨1, none, false, some repo_dir⟩
    | Outcome.ok asserts =>
      if env.writeFails then ⟨2, none, false, some repo_dir⟩
      else ⟨1, some asserts, false, some repo_dir⟩

/-- `process_package` (lines 124-172) as a function of its call outcomes. The
`get_sdist_url` call on line 135 is the only call not wrapped in a
`try`/`except`, so its exception escapes (`raised := true`) before the
overall counter is advanced. -/
def process_package (temp_dir : String) (env : PipelineEnv) : PipelineResult :=
  match env.githubRes with
  | Outcome.exn => ⟨1, none, false, none⟩
  | Outcome.ok github_url =>
    if github_url = "" then
      match env.sdistRes with
      | Outcome.exn => ⟨0, none, true, none⟩
      | Outcome.ok sdist_url =>
        if sdist_url = "" then ⟨1, none, false, none⟩
        else
          match download_and_extract_sdist env.downloadOk env.extractRaises
              sdist_url temp_dir with
          | Except.error _ => ⟨1, none, false, none⟩
          | Except.ok _ => scanStage github_url temp_dir env
    else
      if env.cloneRaises then ⟨1, none, false, none⟩
      else scanStage github_url temp_dir env

/-- Whether the pipeline reaches the scanning block (line 154): the resolution
returned, and either the archive fallback acquired an extraction directory or
a nonempty repository URL was found and the first clone spawn did not raise. -/
def reachesScan (temp_dir : String) (env : PipelineEnv) : Bool :=
  match env.githubRes with
  | Outcome.exn => false
  | Outcome.ok github_url =>
    if github_url = "" then
      match env.sdistRes with
      | Outcome.exn => false
      | Outcome.ok sdist_url =>
        if sdist_url = "" then false
        else
          match download_and_extract_sdist env.downloadOk env.extractRaises
              sdist_url temp_dir with
          | Except.error _ => false
          | Except.ok _ => true
    else !env.cloneRaises

/-- Environment where resolution succeeds with no URL and the sdist lookup
raises: the one uncaught path of `process_package`. -/
def envSdistRaises : PipelineEnv :=
  ⟨Outcome.ok "", Outcome.exn, true, false, false, false, Outcome.ok [], false⟩

/-- Environment that reaches a successful scan but whose record write fails. -/
def envWriteFails : PipelineEnv :=
  ⟨Outcome.ok "https://github.com/a/b", Outcome.ok "", true, false, false, false,
    Outcome.ok [], true⟩

/-- Environment taking the archive-fallback path to a successful scan. -/
def envArchiveFallback : PipelineEnv :=
  ⟨Outcome.ok "", Outcome.ok "http://files.host/pkg-1.0.tar.gz", true, false, false, false,
    Outcome.ok [], false⟩

/-- Environment whose sdist URL names an unsupported `.rar` archive. -/
def envRarSdist : PipelineEnv :=
  ⟨Outcome.ok "", Outcome.ok "http://files.host/pkg-1.0.rar", true, false, false, false,
    Outcome.ok [], false⟩

/-! ### The scanner: `AssertFinder`, `count_py_files`, `find_asserts`
(find_asserts.py lines 96-122)

A parsed Python file is a tree; assertion statements are leaves carrying
their `ast.unparse` rendering (a Python `assert` cannot contain another
`assert`, as its children are expressions). The filesystem walk is modelled
by the list of files it enumerates, in walk order. -/

/-- A node of a parsed syntax tree. -/
inductive PyNode where
  | assertStmt (src : String)
  | node (children : List PyNode)

mutual

/-- `AssertFinder.visit` (lines 96-101): the `ast.NodeVisitor` traversal with
the mutable `self.asserts` accumulator threaded through. `visit_Assert`
appends `ast.unparse(node).strip()`; every other node recurses into its
children in document order (`generic_visit`). -/
def visitAcc : PyNode → List String → List String
  | PyNode.assertStmt src, acc => acc ++ [strTrim src]
  | PyNode.node cs, acc => visitAccList cs acc

def visitAccList : List PyNode → List String → List String
  | [], acc => acc
  | c :: cs, acc => visitAccList cs (visitAcc c acc)

end

mutual

/-- Spec-side description of one file's contribution: the trimmed renderings
of its assertion statements in pre-order depth-first (document) order. -/
def docAsserts : PyNode → List String
  | PyNode.assertStmt src => [strTrim src]
  | PyNode.node cs => docAssertsList cs

def docAssertsList : List PyNode → List String
  | [] => []
  | c :: cs => docAsserts c ++ docAssertsList cs

end

/-- How `ast.parse` turns out for one file: a tree, or a `SyntaxError`
(caught on line 118). -/
inductive ParseOutcome where
  | parsed (tree : PyNode)
  | failed

/-- One file of the walked source tree: its name and its parse outcome. -/
structure SrcFile where
  name : String
  parse : ParseOutcome

/-- State of one `find_asserts` run: the shared `AssertFinder` accumulator,
the number of per-file progress advances (`progress.update(task_id, advance=1)`
on line 120), and the number of reported syntax errors. -/
structure ScanState where
  asserts : List String
  advances : Nat
  parseFailures : Nat
deriving DecidableEq

/-- One iteration of the `find_asserts` file loop (lines 108-121): files not
ending in `.py` are skipped entirely; a `.py` file is parsed and visited, a
`SyntaxError` printed and swallowed; either way the per-file counter advances
once. -/
def scanFile (st : ScanState) (f : SrcFile) : ScanState :=
  if strEnds f.name ".py" then
    match f.parse with
    | ParseOutcome.parsed t => ⟨visitAcc t st.asserts, st.advances + 1, st.parseFailures⟩
    | ParseOutcome.failed => ⟨st.asserts, st.advances + 1, st.parseFailures + 1⟩
  else st

/-- `find_asserts` (lines 106-122) over the walked file list. -/
def find_asserts (files : List SrcFile) : ScanState :=
  files.foldl scanFile ⟨[], 0, 0⟩

/-- `count_py_files` (lines 103-104) over the same walked file list. -/
def count_py_files (files : List SrcFile) : Nat :=
  (files.filter (fun f => strEnds f.name ".py")).length

/-- Spec-side contribution of one file: its document-order assertions when it
is an eligible file that parses, nothing otherwise. -/
def fileAsserts (f : SrcFile) : List String :=
  if strEnds f.name ".py" then
    match f.parse with
    | ParseOutcome.parsed t => docAsserts t
    | ParseOutcome.failed => []
  else []

/-- Spec-side result of a scan: per-file document-order assertion lists,
concatenated in walk order. -/
def scanSpec (files : List SrcFile) : List String :=
  (files.map fileAsserts).flatten

theorem stripPre_eq_some {p s r : List Char} : stripPre p s = some r ↔ s = p ++ r := by
  induction p generalizing s with
  | nil => simp [stripPre]
  | cons a as ih =>
    cases s with
    | nil => simp [stripPre]
    | cons b bs =>
      by_cases hab : a = b
      · subst hab
        simp [stripPre, ih]
      · simp only [stripPre, if_neg hab, List.cons_append]
        constructor
        · intro h
          simp at h
        · intro h
          injection h with h1 h2
          exact absurd h1.symm hab

theorem stripPre_self_append (p r : List Char) : stripPre p (p ++ r) = some r :=
  stripPre_eq_some.mpr rfl

theorem mem_takeWhile_pred {α : Type} (p : α → Bool) (l : List α) :
    ∀ a ∈ l.takeWhile p, p a = true := by
  induction l with
  | nil => simp
  | cons x xs ih =>
    by_cases hx : p x = true
    · simpa [List.takeWhile_cons, hx] using ih
    · simp [List.takeWhile_cons, hx]

theorem dropWhile_head_false {α : Type} (p : α → Bool) (l : List α) {b : α} {bs : List α}
    (h : l.dropWhile p = b :: bs) : p b = false := by
  induction l with
  | nil => simp [List.dropWhile] at h
  | cons x xs ih =>
    by_cases hx : p x = true
    · rw [List.dropWhile_cons, if_pos hx] at h
      exact ih h
    · rw [List.dropWhile_cons, if_neg hx] at h
      cases h
      simpa using hx

theorem takeWhile_of_sat_append {α : Type} (p : α → Bool) (t d : List α)
    (ht : ∀ a ∈ t, p a = true)
    (hd : d = [] ∨ ∃ b bs, d = b :: bs ∧ p b = false) :
    (t ++ d).takeWhile p = t ∧ (t ++ d).dropWhile p = d := by
  induction t with
  | nil =>
    rcases hd with rfl | ⟨b, bs, rfl, hb⟩
    · simp
    · simp [List.takeWhile_cons, List.dropWhile_cons, hb]
  | cons x xs ih =>
    have hx : p x = true := ht x (by simp)
    have hxs : ∀ a ∈ xs, p a = true := fun a ha => ht a (by simp [ha])
    obtain ⟨h1, h2⟩ := ih hxs
    simp [List.takeWhile_cons, List.dropWhile_cons, hx, h1, h2]

theorem matchTail_eq_some {pre r l : List Char} :
    matchTail pre r = some l ↔
    ∃ ow rp rest, ow ≠ [] ∧ (∀ c ∈ ow, c ≠ '/') ∧ rp ≠ [] ∧ (∀ c ∈ rp, c ≠ '/') ∧
      (rest = [] ∨ ∃ r2, rest = '/' :: r2) ∧
      r = ow ++ '/' :: (rp ++ rest) ∧ l = pre ++ ow ++ '/' :: rp := by
  constructor
  · intro h
    unfold matchTail at h
    simp only at h
    by_cases how : r.takeWhile (fun c => decide (c ≠ '/')) = []
    · rw [if_pos how] at h
      cases h
    · rw [if_neg how] at h
      cases hdw : r.dropWhile (fun c => decide (c ≠ '/')) with
      | nil => rw [hdw] at h; simp at h
      | cons b bs =>
        rw [hdw] at h
        have hb : b = '/' := by
          have hfalse := dropWhile_head_false (fun c => decide (c ≠ '/')) r hdw
          simpa using hfalse
        rw [if_neg (by simp : ¬(b :: bs = ([] : List Char))), List.tail_cons] at h
        by_cases hrp : bs.takeWhile (fun c => decide (c ≠ '/')) = []
        · rw [if_pos hrp] at h
          cases h
        · rw [if_neg hrp] at h
          injection h with h
          refine ⟨r.takeWhile (fun c => decide (c ≠ '/')),
            bs.takeWhile (fun c => decide (c ≠ '/')),
            bs.dropWhile (fun c => decide (c ≠ '/')), how, ?_, hrp, ?_, ?_, ?_, ?_⟩
          · intro c hc
            have := mem_takeWhile_pred (fun c => decide (c ≠ '/')) r c hc
            simpa using this
          · intro c hc
            have := mem_takeWhile_pred (fun c => decide (c ≠ '/')) bs c hc
            simpa using this
          · cases hdw2 : bs.dropWhile (fun c => decide (c ≠ '/')) with
            | nil => exact Or.inl rfl
            | cons b2 bs2 =>
              have hb2 := dropWhile_head_false (fun c => decide (c ≠ '/')) bs hdw2
              have : b2 = '/' := by simpa using hb2
              exact Or.inr ⟨bs2, by rw [this]⟩
          · have h2 : bs.takeWhile (fun c => decide (c ≠ '/')) ++
                bs.dropWhile (fun c => decide (c ≠ '/')) = bs :=
              List.takeWhile_append_dropWhile ..
            rw [h2]
            have h1 : r.takeWhile (fun c => decide (c ≠ '/')) ++
                r.dropWhile (fun c => decide (c ≠ '/')) = r :=
              List.takeWhile_append_dropWhile ..
            rw [hdw, hb] at h1
            exact h1.symm
          · exact h.symm
  · rintro ⟨ow, rp, rest, how, howp, hrp, hrpp, hrest, rfl, rfl⟩
    have hslash : (fun c => decide (c ≠ '/')) '/' = false := by simp
    have hsplit1 := takeWhile_of_sat_append (fun c => decide (c ≠ '/')) ow ('/' :: (rp ++ rest))
      (fun a ha => by simpa using howp a ha) (Or.inr ⟨'/', rp ++ rest, rfl, hslash⟩)
    have hsplit2 := takeWhile_of_sat_append (fun c => decide (c ≠ '/')) rp rest
      (fun a ha => by simpa using hrpp a ha) ?_
    · unfold matchTail
      simp only
      rw [hsplit1.1, if_neg how, hsplit1.2,
        if_neg (by simp : ¬('/' :: (rp ++ rest) = ([] : List Char))),
        List.tail_cons, hsplit2.1, if_neg hrp]
    · rcases hrest with rfl | ⟨r2, rfl⟩
      · exact Or.inl rfl
      · exact Or.inr ⟨'/', r2, rfl, hslash⟩

theorem matchGithubCore_http (R : List Char) :
    matchGithubCore (httpHead ++ R) = matchTail httpHead R := rfl

theorem matchGithubCore_https (R : List Char) :
    matchGithubCore (httpsHead ++ R) = matchTail httpsHead R := rfl

theorem matchGithubCore_eq_some {s l : List Char} :
    matchGithubCore s = some l ↔ CoreGithubSpec s l := by
  constructor
  · intro h
    unfold matchGithubCore at h
    split at h
    · cases h
    · cases h
    · rename_i c r1 hsp
      split at h
      · rename_i hc
        subst hc
        split at h
        · rename_i r2 heq2
          have hs2 : s = httpsHead ++ r2 := by
            rw [stripPre_eq_some.mp hsp, stripPre_eq_some.mp heq2]
            rfl
          obtain ⟨ow, rp, rest, how, howp, hrp, hrpp, hrest, hr2, hl⟩ :=
            matchTail_eq_some.mp h
          exact ⟨httpsHead, ow, rp, rest, Or.inr rfl, how, howp, hrp, hrpp, hrest,
            by rw [hs2, hr2, List.append_assoc], hl⟩
        · cases h
      · split at h
        · rename_i r2 heq2
          have hs2 : s = httpHead ++ r2 := by
            rw [stripPre_eq_some.mp hsp, stripPre_eq_some.mp heq2]
            rfl
          obtain ⟨ow, rp, rest, how, howp, hrp, hrpp, hrest, hr2, hl⟩ :=
            matchTail_eq_some.mp h
          exact ⟨httpHead, ow, rp, rest, Or.inl rfl, how, howp, hrp, hrpp, hrest,
            by rw [hs2, hr2, List.append_assoc], hl⟩
        · cases h
  · rintro ⟨head, ow, rp, rest, hh, how, howp, hrp, hrpp, hrest, rfl, rfl⟩
    rcases hh with rfl | rfl
    · rw [List.append_assoc httpHead ow ('/' :: (rp ++ rest)), matchGithubCore_http]
      exact matchTail_eq_some.mpr ⟨ow, rp, rest, how, howp, hrp, hrpp, hrest, rfl, rfl⟩
    · rw [List.append_assoc httpsHead ow ('/' :: (rp ++ rest)), matchGithubCore_https]
      exact matchTail_eq_some.mpr ⟨ow, rp, rest, how, howp, hrp, hrpp, hrest, rfl, rfl⟩

theorem string_mk_eq {l : List Char} {m : String} : String.mk l = m ↔ l = m.data := by
  cases m with
  | mk d =>
    constructor
    · intro h
      injection h
    · intro h
      rw [h]

theorem githubMatch_eq_some {v m : String} :
    githubMatch v = some m ↔ SpecGithubPattern v m := by
  unfold SpecGithubPattern
  rw [← matchGithubCore_eq_some]
  unfold githubMatch
  cases matchGithubCore v.data with
  | none => simp
  | some l => simp [string_mk_eq]

theorem pyOrStr_eq_some {a b : Option String} {u : String} :
    pyOrStr a b = some u ↔
    ((a = some u ∧ u ≠ "") ∨ ((a = none ∨ a = some "") ∧ b = some u)) := by
  cases a with
  | none =>
    have hred : pyOrStr none b = b := rfl
    rw [hred]
    constructor
    · intro h
      exact Or.inr ⟨Or.inl rfl, h⟩
    · rintro (⟨h1, h2⟩ | ⟨h1, h2⟩)
      · cases h1
      · exact h2
  | some s =>
    have hred : pyOrStr (some s) b = if s = "" then b else some s := rfl
    rw [hred]
    by_cases hs : s = ""
    · rw [if_pos hs]
      subst hs
      constructor
      · intro h
        exact Or.inr ⟨Or.inr rfl, h⟩
      · rintro (⟨h1, h2⟩ | ⟨h1, h2⟩)
        · injection h1 with h1
          exact absurd h1.symm h2
        · exact h2
    · rw [if_neg hs]
      constructor
      · intro h
        injection h with h
        exact Or.inl ⟨by rw [h], by rw [← h]; exact hs⟩
      · rintro (⟨h1, h2⟩ | ⟨(h1 | h1), h2⟩)
        · exact h1
        · cases h1
        · injection h1 with h1
          exact absurd h1 hs

theorem KeyHit.pyOr {d : List (String × String)} {k u : String} (h : KeyHit d k u) :
    pyOrStr (dictGet d k) (dictGet d (lowerStr k)) = some u := by
  obtain ⟨hd, hu, hg⟩ := h
  refine pyOrStr_eq_some.mpr ?_
  rcases hd with hd | hd
  · exact Or.inl ⟨hd, hu⟩
  · exact Or.inr hd

theorem keyProbe_eq_some_iff {d : List (String × String)} {k u : String} :
    keyProbe d k = some u ↔ KeyHit d k u := by
  cases hp : pyOrStr (dictGet d k) (dictGet d (lowerStr k)) with
  | none =>
    have hkp : keyProbe d k = none := by
      unfold keyProbe
      rw [hp]
    rw [hkp]
    constructor
    · intro h
      cases h
    · intro h
      rw [h.pyOr] at hp
      cases hp
  | some w =>
    have hkp : keyProbe d k =
        if w = "" then none else if hasGithub w then some w else none := by
      unfold keyProbe
      rw [hp]
    rw [hkp]
    by_cases hw : w = ""
    · subst hw
      rw [if_pos rfl]
      constructor
      · intro h
        cases h
      · intro h
        rw [h.pyOr] at hp
        injection hp with hp
        exact absurd hp h.2.1
    · rw [if_neg hw]
      by_cases hg : hasGithub w = true
      · rw [if_pos hg]
        constructor
        · intro h
          injection h with h
          subst h
          obtain hpy := pyOrStr_eq_some.mp hp
          refine ⟨?_, hw, hg⟩
          rcases hpy with ⟨h1, _⟩ | ⟨h1, h2⟩
          · exact Or.inl h1
          · exact Or.inr ⟨h1, h2⟩
        · intro h
          rw [h.pyOr] at hp
          injection hp with hp
          rw [hp]
      · rw [if_neg hg]
        constructor
        · intro h
          cases h
        · intro h
          rw [h.pyOr] at hp
          injection hp with hp
          rw [← hp] at hg
          exact absurd h.2.2 hg

theorem keyMiss_probe_none {d : List (String × String)} {k : String} (h : KeyMiss d k) :
    keyProbe d k = none := by
  cases hp : keyProbe d k with
  | none => rfl
  | some u => exact absurd (keyProbe_eq_some_iff.mp hp) (h u)

theorem keyScan_first_hit {d : List (String × String)} (pre : List String)
    {post : List String} {k u : String}
    (hpre : ∀ k2 ∈ pre, KeyMiss d k2) (hk : KeyHit d k u) :
    keyScan d (pre ++ k :: post) = some u := by
  induction pre with
  | nil =>
    rw [List.nil_append]
    unfold keyScan
    rw [keyProbe_eq_some_iff.mpr hk]
  | cons k2 ks ih =>
    have hmiss : keyProbe d k2 = none := keyMiss_probe_none (hpre k2 (by simp))
    have hrest : ∀ k3 ∈ ks, KeyMiss d k3 := fun k3 h3 => hpre k3 (by simp [h3])
    rw [List.cons_append]
    unfold keyScan
    rw [hmiss]
    exact ih hrest

theorem firstGithubValue_first_match (pre : List String) {post : List String} {v m : String}
    (hpre : ∀ u ∈ pre, githubMatch u = none) (hm : githubMatch v = some m) :
    firstGithubValue (pre ++ v :: post) = some m := by
  induction pre with
  | nil =>
    rw [List.nil_append]
    unfold firstGithubValue
    rw [hm]
  | cons w ws ih =>
    have hw : githubMatch w = none := hpre w (by simp)
    have hrest : ∀ u ∈ ws, githubMatch u = none := fun u hu => hpre u (by simp [hu])
    rw [List.cons_append]
    unfold firstGithubValue
    rw [hw]
    exact ih hrest

mutual

theorem visitAcc_eq : ∀ (t : PyNode) (acc : List String),
    visitAcc t acc = acc ++ docAsserts t
  | PyNode.assertStmt _, _ => rfl
  | PyNode.node cs, acc => visitAccList_eq cs acc

theorem visitAccList_eq : ∀ (cs : List PyNode) (acc : List String),
    visitAccList cs acc = acc ++ docAssertsList cs
  | [], acc => by simp [visitAccList, docAssertsList]
  | c :: cs, acc => by
    unfold visitAccList docAssertsList
    rw [visitAcc_eq c acc, visitAccList_eq cs (acc ++ docAsserts c), List.append_assoc]

end

theorem foldl_scanFile_asserts (files : List SrcFile) (st : ScanState) :
    (files.foldl scanFile st).asserts = st.asserts ++ scanSpec files := by
  induction files generalizing st with
  | nil => simp [scanSpec]
  | cons f fs ih =>
    rw [List.foldl_cons, ih]
    have hspec : scanSpec (f :: fs) = fileAsserts f ++ scanSpec fs := by
      simp [scanSpec]
    rw [hspec]
    unfold scanFile fileAsserts
    by_cases hf : strEnds f.name ".py" = true
    · cases hp : f.parse with
      | parsed t => simp [hf, visitAcc_eq, List.append_assoc]
      | failed => simp [hf]
    · simp [hf]

theorem find_asserts_asserts (files : List SrcFile) :
    (find_asserts files).asserts = scanSpec files := by
  unfold find_asserts
  rw [foldl_scanFile_asserts]
  rfl

theorem foldl_scanFile_advances (files : List SrcFile) (st : ScanState) :
    (files.foldl scanFile st).advances = st.advances + count_py_files files := by
  induction files generalizing st with
  | nil => simp [count_py_files]
  | cons f fs ih =>
    rw [List.foldl_cons, ih]
    unfold scanFile
    have hcount : count_py_files (f :: fs) =
        (if strEnds f.name ".py" = true then 1 else 0) + count_py_files fs := by
      by_cases hf : strEnds f.name ".py" = true
      · simp [count_py_files, List.filter_cons, hf]
        omega
      · simp [count_py_files, List.filter_cons, hf]
    rw [hcount]
    by_cases hf : strEnds f.name ".py" = true
    · cases hp : f.parse with
      | parsed t => simp [hf]; omega
      | failed => simp [hf]; omega
    · simp [hf]

/-- C8: the scan returns, across files in walk order and within each parsed
file in pre-order document order, every assertion's trimmed canonical text;
in particular a tree with file `a` holding assertions `x, y` walked before
file `b` holding `z` yields `[x, y, z]`. -/
theorem find_asserts_document_order :
    (∀ files : List SrcFile, (find_asserts files).asserts = scanSpec files) ∧
    (∀ (na nb x y z : String) (ta tb : PyNode),
      strEnds na ".py" = true → strEnds nb ".py" = true →
      docAsserts ta = [x, y] → docAsserts tb = [z] →
      (find_asserts [⟨na, ParseOutcome.parsed ta⟩, ⟨nb, ParseOutcome.parsed tb⟩]).asserts
        = [x, y, z]) := by
  refine ⟨find_asserts_asserts, ?_⟩
  intro na nb x y z ta tb ha hb hta htb
  rw [find_asserts_asserts]
  simp [scanSpec, fileAsserts, ha, hb, hta, htb]

/-- Witness for C8 at a concrete two-file tree. -/
theorem find_asserts_document_order_witness :
    (find_asserts
      [⟨"a.py", ParseOutcome.parsed (PyNode.node
          [PyNode.assertStmt "assert x", PyNode.assertStmt "assert y"])⟩,
       ⟨"b.py", ParseOutcome.parsed (PyNode.assertStmt "assert z")⟩]).asserts =
      ["assert x", "assert y", "assert z"] :=
  find_asserts_document_order.2 "a.py" "b.py" "assert x" "assert y" "assert z"
    (PyNode.node [PyNode.assertStmt "assert x", PyNode.assertStmt "assert y"])
    (PyNode.assertStmt "assert z") (by decide) (by decide) (by decide) (by decide)

/-- C9: a tree with one syntactically invalid `.py` file and one valid `.py`
file whose only assertion is `q` yields exactly `[q]`, with one reported
parse failure, in either walk order. -/
theorem find_asserts_parse_failure_isolated
    (nbad ngood q : String) (t : PyNode)
    (h1 : strEnds nbad ".py" = true) (h2 : strEnds ngood ".py" = true)
    (ht : docAsserts t = [q]) :
    ((find_asserts [⟨nbad, ParseOutcome.failed⟩, ⟨ngood, ParseOutcome.parsed t⟩]).asserts
        = [q] ∧
      (find_asserts [⟨nbad, ParseOutcome.failed⟩,
        ⟨ngood, ParseOutcome.parsed t⟩]).parseFailures = 1) ∧
    ((find_asserts [⟨ngood, ParseOutcome.parsed t⟩, ⟨nbad, ParseOutcome.failed⟩]).asserts
        = [q] ∧
      (find_asserts [⟨ngood, ParseOutcome.parsed t⟩,
        ⟨nbad, ParseOutcome.failed⟩]).parseFailures = 1) := by
  refine ⟨⟨?_, ?_⟩, ⟨?_, ?_⟩⟩
  · rw [find_asserts_asserts]
    simp [scanSpec, fileAsserts, h1, h2, ht]
  · simp [find_asserts, scanFile, h1, h2]
  · rw [find_asserts_asserts]
    simp [scanSpec, fileAsserts, h1, h2, ht]
  · simp [find_asserts, scanFile, h1, h2]

/-- Witness for C9 at a concrete two-file tree. -/
theorem find_asserts_parse_failure_isolated_witness :
    (find_asserts [⟨"bad.py", ParseOutcome.failed⟩,
      ⟨"good.py", ParseOutcome.parsed (PyNode.assertStmt "assert q")⟩]).asserts
      = ["assert q"] :=
  (find_asserts_parse_failure_isolated "bad.py" "good.py" "assert q"
    (PyNode.assertStmt "assert q") (by decide) (by decide) (by decide)).1.1

theorem keyMiss_of_gets {d : List (String × String)} {k : String}
    (h1 : dictGet d k = none) (h2 : dictGet d (lowerStr k) = none) : KeyMiss d k := by
  intro u hu
  rcases hu with ⟨hd | ⟨_, hd⟩, _, _⟩
  · rw [h1] at hd
    cases hd
  · rw [h2] at hd
    cases hd

/-- C4: with a successful metadata response, the resolver returns the first
project-URL value (in mapping iteration order) matching
`https?://github.com/<owner>/<repo>` at its start, truncated to exactly
scheme, host, owner and repo with any trailing path ignored, before any
key-name lookup is consulted (the result does not depend on the keys). -/
theorem get_github_url_first_pattern_match
    (d : List (String × String)) (pre post : List String) (v m : String)
    (hvals : d.map Prod.snd = pre ++ v :: post)
    (hpre : ∀ u ∈ pre, ∀ m0 : String, ¬ SpecGithubPattern u m0)
    (hv : SpecGithubPattern v m) :
    get_github_url d = m := by
  have h1 : ∀ u ∈ pre, githubMatch u = none := by
    intro u hu
    cases hgm : githubMatch u with
    | none => rfl
    | some m0 => exact absurd (githubMatch_eq_some.mp hgm) (hpre u hu m0)
  have h2 : githubMatch v = some m := githubMatch_eq_some.mpr hv
  unfold get_github_url
  rw [hvals, firstGithubValue_first_match pre h1 h2]

/-- Witness for C4: a value with a trailing path, preceded by a non-matching
value, is returned truncated to scheme, host, owner and repo. -/
theorem get_github_url_first_pattern_match_witness :
    get_github_url
      [("Docs", "https://readthedocs.org/p/x"),
       ("Homepage", "https://github.com/pablogsal/memray/tree/main")] =
      "https://github.com/pablogsal/memray" :=
  get_github_url_first_pattern_match _
    ["https://readthedocs.org/p/x"] [] _ _ rfl
    (by
      intro u hu m0 hm0
      have hu2 : u = "https://readthedocs.org/p/x" := by simpa using hu
      subst hu2
      have : githubMatch "https://readthedocs.org/p/x" = some m0 :=
        githubMatch_eq_some.mpr hm0
      rw [show githubMatch "https://readthedocs.org/p/x" = none from rfl] at this
      cases this)
    ⟨httpsHead, "pablogsal".data, "memray".data, "/tree/main".data,
      Or.inr rfl, by decide, by decide, by decide, by decide,
      Or.inr ⟨"tree/main".data, by decide⟩, by decide, by decide⟩

/-- C5 counterexample: the key lookup is not case-insensitive. The key
`SOURCE` is a capitalization of the listed key `Source` and its value
contains `github.com` (and no value matches the URL pattern), yet the
resolver returns the empty string instead of the value. -/
theorem get_github_url_key_lookup_counterexample :
    get_github_url [("SOURCE", "http://www.github.com/a/b")] = "" ∧
    hasGithub "http://www.github.com/a/b" = true ∧
    firstGithubValue ([("SOURCE", "http://www.github.com/a/b")].map Prod.snd) = none ∧
    lowerStr "SOURCE" = lowerStr "Source" := by
  refine ⟨rfl, rfl, rfl, rfl⟩

/-- C5 (amended): when no value matches the pattern, the resolver walks
`Source, Code, Repository, "GitHub: repo", "Source Code", Homepage, GitHub`
in that order, looking each key up by its exact listed capitalization and,
when that is absent or bound to an empty value, by its all-lowercase form
(other capitalizations are not found), and returns the first found value
that is nonempty and contains `github.com`. -/
theorem get_github_url_key_priority
    (d : List (String × String)) (pre post : List String) (k u : String)
    (hnoval : firstGithubValue (d.map Prod.snd) = none)
    (hkeys : commonKeys = pre ++ k :: post)
    (hpre : ∀ k2 ∈ pre, KeyMiss d k2)
    (hk : KeyHit d k u) :
    get_github_url d = u := by
  unfold get_github_url
  rw [hnoval, hkeys, keyScan_first_hit pre hpre hk]

/-- Witness for C5: the all-lowercase fallback key `code` is found after the
miss on `Source`. -/
theorem get_github_url_key_priority_witness :
    get_github_url [("code", "http://www.github.com/x/y")] = "http://www.github.com/x/y" :=
  get_github_url_key_priority [("code", "http://www.github.com/x/y")]
    ["Source"] ["Repository", "GitHub: repo", "Source Code", "Homepage", "GitHub"]
    "Code" "http://www.github.com/x/y" rfl rfl
    (by
      intro k2 hk2
      have : k2 = "Source" := by simpa using hk2
      subst this
      exact keyMiss_of_gets rfl rfl)
    ⟨Or.inr ⟨Or.inl rfl, rfl⟩, by decide, rfl⟩

/-- C6 counterexample: the issue-tracker branch removes every occurrence of
`/issues`, not only a trailing suffix. This URL has no trailing `/issues`,
so the claim predicts it is returned unchanged, yet its interior `/issues`
is deleted. -/
theorem get_github_url_issue_replace_counterexample :
    get_github_url [("Issues", "http://www.github.com/org/issues-tracker")] =
      "http://www.github.com/org-tracker" ∧
    strEnds "http://www.github.com/org/issues-tracker" "/issues" = false ∧
    "http://www.github.com/org-tracker" ≠ "http://www.github.com/org/issues-tracker" := by
  refine ⟨rfl, rfl, by decide⟩

/-- C6 (amended): when neither the pattern scan nor the well-known-key lookup
finds a URL, the resolver walks `Issues, Bug Tracker, Bug Reports` in order
(exact capitalization, with the lowercase fallback as in C5) and returns the
first found `github.com` value with every occurrence of the substring
`/issues` removed (left to right, non-overlapping) — not merely a trailing
suffix. -/
theorem get_github_url_issue_lookup
    (d : List (String × String)) (pre post : List String) (k u : String)
    (hnoval : firstGithubValue (d.map Prod.snd) = none)
    (hcommon : keyScan d commonKeys = none)
    (hkeys : issueKeys = pre ++ k :: post)
    (hpre : ∀ k2 ∈ pre, KeyMiss d k2)
    (hk : KeyHit d k u) :
    get_github_url d = replaceIssues u := by
  unfold get_github_url
  rw [hnoval, hcommon, hkeys, keyScan_first_hit pre hpre hk]

/-- Witness for C6: a `Bug Tracker` URL with a trailing `/issues`, found after
the miss on `Issues`, is returned with the suffix removed. -/
theorem get_github_url_issue_lookup_witness :
    get_github_url [("Bug Tracker", "http://www.github.com/p/x/issues")] =
      "http://www.github.com/p/x" :=
  have h := get_github_url_issue_lookup
    [("Bug Tracker", "http://www.github.com/p/x/issues")]
    ["Issues"] ["Bug Reports"] "Bug Tracker" "http://www.github.com/p/x/issues"
    rfl rfl rfl
    (by
      intro k2 hk2
      have : k2 = "Issues" := by simpa using hk2
      subst this
      exact keyMiss_of_gets rfl rfl)
    ⟨Or.inl rfl, by decide, rfl⟩
  by rw [h]; rfl

theorem lastSegment_concat (p b : String) (hb : ∀ c ∈ b.data, c ≠ '/') :
    lastSegment (p ++ "/" ++ b) = b := by
  unfold lastSegment
  have hdata : (p ++ "/" ++ b).data = p.data ++ '/' :: b.data := by
    rw [String.data_append, String.data_append, List.append_assoc]
    rfl
  rw [hdata]
  have hrev : (p.data ++ '/' :: b.data).reverse = b.data.reverse ++ '/' :: p.data.reverse := by
    rw [List.reverse_append, List.reverse_cons, List.append_assoc]
    rfl
  rw [hrev]
  have hsat : ∀ c ∈ b.data.reverse, (fun c => decide (c ≠ '/')) c = true := by
    intro c hc
    rw [List.mem_reverse] at hc
    simpa using hb c hc
  have hsplit := takeWhile_of_sat_append (fun c => decide (c ≠ '/')) b.data.reverse
    ('/' :: p.data.reverse) hsat (Or.inr ⟨'/', p.data.reverse, rfl, by simp⟩)
  rw [hsplit.1, List.reverse_reverse]

theorem ospath_join_to_empty (w : String) (hw1 : w ≠ "") (hw2 : strEnds w "/" = false) :
    ospath_join w "" = w ++ "/" := by
  unfold ospath_join
  rw [show strStarts "" "/" = false from rfl, hw2]
  simp only [Bool.false_eq_true, if_false, if_neg hw1]
  apply String.ext
  rw [String.data_append, String.data_append]
  simp [show ("" : String).data = ([] : List Char) from rfl]

theorem ospath_join_plain (w b : String) (hw1 : w ≠ "") (hw2 : strEnds w "/" = false)
    (hb : strStarts b "/" = false) : ospath_join w b = w ++ "/" ++ b := by
  unfold ospath_join
  rw [hb, hw2]
  simp [hw1]

theorem append_slash_ne_longer (w b : String) (hb : b ≠ "") :
    w ++ "/" ≠ w ++ "/" ++ b := by
  intro heq
  have hlen := congrArg (fun s => s.data.length) heq
  simp only [String.data_append, List.length_append] at hlen
  have hbne : b.data.length ≠ 0 := by
    intro h0
    exact hb (String.ext (by rw [List.length_eq_zero.mp h0]))
  omega

theorem download_ok_dir {dl ex : Bool} {u w d : String}
    (h : download_and_extract_sdist dl ex u w = Except.ok d) :
    d = ospath_join w "extracted" := by
  unfold download_and_extract_sdist at h
  dsimp only at h
  repeat' split at h
  all_goals cases h <;> rfl

/-- C1 counterexample: with resolution succeeding with no URL and the sdist
lookup raising, the exception escapes `process_package`; the overall counter
is not advanced and no record is written, contradicting "never raises". -/
theorem process_package_can_raise :
    (process_package "/ws" envSdistRaises).raised = true ∧
    (process_package "/ws" envSdistRaises).advances = 0 ∧
    (process_package "/ws" envSdistRaises).record = none :=
  ⟨rfl, rfl, rfl⟩

/-- C1 (amended): `process_package` raises if and only if resolution succeeds
with no URL and the sdist lookup raises — the `get_sdist_url` call on line
135 is the only call outside every `try` block; all other failures of the
external calls are caught inside. -/
theorem process_package_raised_iff (temp_dir : String) (env : PipelineEnv) :
    (process_package temp_dir env).raised = true ↔
      (env.githubRes = Outcome.ok "" ∧ env.sdistRes = Outcome.exn) := by
  obtain ⟨g, s, dl, ex, c1, c2, sc, wf⟩ := env
  cases g with
  | exn => simp [process_package]
  | ok gu =>
    by_cases hg : gu = ""
    · subst hg
      cases s with
      | exn => simp [process_package]
      | ok su =>
        by_cases hs : su = ""
        · simp [process_package, hs]
        · cases hdl : download_and_extract_sdist dl ex su temp_dir with
          | error e => simp [process_package, hs, hdl]
          | ok dd =>
            cases c2 <;> cases sc <;> cases wf <;>
              simp [process_package, scanStage, hs, hdl]
    · cases c1 <;> cases c2 <;> cases sc <;> cases wf <;>
        simp [process_package, scanStage, hg]

/-- C2 counterexample: a pipeline that reaches a successful scan and then
fails to write the record advances the overall counter twice — once on line
160 and once in the `except` handler on line 169 — contradicting "exactly
once". -/
theorem process_package_double_advance :
    (process_package "/ws" envWriteFails).advances = 2 ∧
    (process_package "/ws" envWriteFails).record = none :=
  ⟨rfl, rfl⟩

/-- C2 (amended): one `process_package` invocation advances the overall
counter exactly once on every exit path, except that it advances zero times
when the sdist lookup raises, and twice when a successful scan is followed by
a failing record write. -/
theorem process_package_advances_eq (temp_dir : String) (env : PipelineEnv) :
    (process_package temp_dir env).advances =
      if env.githubRes = Outcome.ok "" ∧ env.sdistRes = Outcome.exn then 0
      else if reachesScan temp_dir env = true ∧ env.recloneRaises = false ∧
          env.scanRes ≠ Outcome.exn ∧ env.writeFails = true then 2
      else 1 := by
  obtain ⟨g, s, dl, ex, c1, c2, sc, wf⟩ := env
  cases g with
  | exn => simp [process_package, reachesScan]
  | ok gu =>
    by_cases hg : gu = ""
    · subst hg
      cases s with
      | exn => simp [process_package, reachesScan]
      | ok su =>
        by_cases hs : su = ""
        · simp [process_package, reachesScan, hs]
        · cases hdl : download_and_extract_sdist dl ex su temp_dir with
          | error e => simp [process_package, reachesScan, hs, hdl]
          | ok dd =>
            cases c2 <;> cases sc <;> cases wf <;>
              simp [process_package, reachesScan, scanStage, hs, hdl]
    · cases c1 <;> cases c2 <;> cases sc <;> cases wf <;>
        simp [process_package, reachesScan, scanStage, hg]

/-- C3: `clone_repo(u, w)` returns `w` joined with the last `'/'`-separated
segment of `u`; with the empty URL of the archive-fallback path, the
unconditional re-clone on line 156 hands the workspace directory itself
(path `w ++ "/"`) to the sizing pass and the scan, not the `extracted`
subdirectory the archive extraction produced. -/
theorem clone_rejoins_workspace_on_archive_fallback
    (w u : String) (env : PipelineEnv)
    (hw1 : w ≠ "") (hw2 : strEnds w "/" = false)
    (hg : env.githubRes = Outcome.ok "")
    (hs : env.sdistRes = Outcome.ok u) (hu : u ≠ "")
    (hacq : ∃ dir, download_and_extract_sdist env.downloadOk env.extractRaises u w
      = Except.ok dir)
    (hre : env.recloneRaises = false) :
    (∀ u2 w2 : String, clone_repo u2 w2 = ospath_join w2 (lastSegment u2)) ∧
    (∀ p b : String, (∀ c ∈ b.data, c ≠ '/') → lastSegment (p ++ "/" ++ b) = b) ∧
    clone_repo "" w = w ++ "/" ∧
    (process_package w env).scannedDir = some (w ++ "/") ∧
    (∀ dir, download_and_extract_sdist env.downloadOk env.extractRaises u w
        = Except.ok dir →
      dir = ospath_join w "extracted" ∧ w ++ "/" ≠ dir) := by
  have hclone : clone_repo "" w = w ++ "/" := by
    unfold clone_repo
    rw [show lastSegment "" = "" from rfl]
    exact ospath_join_to_empty w hw1 hw2
  refine ⟨fun u2 w2 => rfl, lastSegment_concat, hclone, ?_, ?_⟩
  · obtain ⟨g, s, dl, ex, c1, c2, sc, wf⟩ := env
    dsimp only at hg hs hre hacq
    subst hg
    subst hs
    subst hre
    obtain ⟨dir0, hdir⟩ := hacq
    cases sc <;> cases wf <;>
      simp [process_package, scanStage, hu, hdir, hclone]
  · intro dir hdirok
    have hd := download_ok_dir hdirok
    refine ⟨hd, ?_⟩
    rw [hd, ospath_join_plain w "extracted" hw1 hw2 rfl]
    exact append_slash_ne_longer w "extracted" (by decide)

/-- Witness for C3 at a concrete fallback environment. -/
theorem clone_rejoins_workspace_on_archive_fallback_witness :
    (process_package "/ws" envArchiveFallback).scannedDir = some ("/ws" ++ "/") ∧
    clone_repo "" "/ws" = "/ws" ++ "/" :=
  have h := clone_rejoins_workspace_on_archive_fallback "/ws"
    "http://files.host/pkg-1.0.tar.gz" envArchiveFallback
    (by decide) rfl rfl rfl (by decide)
    ⟨"/ws/extracted", rfl⟩ rfl
  ⟨h.2.2.2.1, h.2.2.1⟩

/-- C7: when the sdist file name ends in none of `.tar.gz`, `.tgz`, `.zip`, a
successful download is followed by the unsupported-format failure, and the
pipeline writes no record while advancing the overall counter exactly once. -/
theorem sdist_unsupported_format_no_record
    (temp_dir url : String) (env : PipelineEnv)
    (hg : env.githubRes = Outcome.ok "")
    (hs : env.sdistRes = Outcome.ok url) (hu : url ≠ "")
    (hdl : env.downloadOk = true)
    (h1 : strEnds (basename url) ".tar.gz" = false)
    (h2 : strEnds (basename url) ".tgz" = false)
    (h3 : strEnds (basename url) ".zip" = false) :
    download_and_extract_sdist env.downloadOk env.extractRaises url temp_dir =
      Except.error (AcqError.unsupportedFormat (basename url)) ∧
    (process_package temp_dir env).record = none ∧
    (process_package temp_dir env).advances = 1 ∧
    (process_package temp_dir env).raised = false := by
  obtain ⟨g, s, dl, ex, c1, c2, sc, wf⟩ := env
  dsimp only at hg hs hdl ⊢
  subst hg
  subst hs
  subst hdl
  have hd : download_and_extract_sdist true ex url temp_dir =
      Except.error (AcqError.unsupportedFormat (basename url)) := by
    unfold download_and_extract_sdist
    simp [h1, h2, h3]
  refine ⟨hd, ?_, ?_, ?_⟩ <;> simp [process_package, hu, hd]

/-- Witness for C7 at a concrete `.rar` archive URL. -/
theorem sdist_unsupported_format_no_record_witness :
    (process_package "/ws" envRarSdist).record = none ∧
    (process_package "/ws" envRarSdist).advances = 1 :=
  have h := sdist_unsupported_format_no_record "/ws" "http://files.host/pkg-1.0.rar"
    envRarSdist rfl rfl (by decide) rfl rfl rfl rfl
  ⟨h.2.1, h.2.2.1⟩

/-- C10: the sizing pre-pass and the scan agree on the eligible files: for the
same walk enumeration, `count_py_files` equals the number of per-file
progress advances `find_asserts` performs. -/
theorem count_py_files_eq_scan_advances :
    ∀ files : List SrcFile, count_py_files files = (find_asserts files).advances := by
  intro files
  unfold find_asserts
  rw [foldl_scanFile_advances]
  simp

end AssertGatherer
